import Mathlib

/-!
Shallow embedding of the deployment framework in `src/index.ts` (the "framo"
library): data model, template resolution (`_loadConfig`), dependency
verification (`_verifyDependencies`) and the executor (`run`), together with
theorems checking the natural-language specification against this embedding.

JavaScript `Map`s are modelled as association lists queried with
`List.lookup`; `Set<string>` as `Finset String`; thrown `assert` errors as
`Except String`; the `string | string[]` union type as `StrOrList`.
-/

namespace Framo

/-- The TS union `string | string[]` used for `of` fields. -/
inductive StrOrList where
  | scalar (s : String)
  | seq (l : List String)
deriving DecidableEq, Repr

/-- `toArray` from src/index.ts line 45: wraps a scalar into a singleton
array and returns arrays unchanged. -/
def toArray : StrOrList → List String
  | .scalar s => [s]
  | .seq l => l

/-- One element of a deployment entry's `modules` list: either a bare module
name (string) or a `LoadModule` override `{name, of}`. -/
inductive ModuleRef where
  | str (name : String)
  | load (name : String) (of : StrOrList)
deriving DecidableEq, Repr

/-- A dependency declaration `{name, of}` inside a module's `config.yml`.
The implementation applies `toArray` to `of` (line 151), so `of` is
modelled as `StrOrList`. -/
structure DependencyDecl where
  name : String
  of : StrOrList
deriving DecidableEq, Repr

/-- `ModuleConfig`: one module's declaration, loaded from its `config.yml`.
`dependencies` is optional (line 145 checks for its absence). -/
structure ModuleConfig where
  version : Int
  dependencies : Option (List DependencyDecl)
  name : String
deriving DecidableEq, Repr

/-- A fully formed deployment entry (the TS `Deployment` type). -/
structure Deployment where
  type : String
  name : String
  of : StrOrList
  description : Option String
  modules : List ModuleRef
  template : Option String
  load : Option (List String)
deriving DecidableEq, Repr

/-- A deployment entry as it sits in the parsed YAML before resolution:
every field may be absent.  JS objects parsed from YAML only carry the keys
that were written, and the spread merge in `_loadConfig` distinguishes
"absent" from any present value, so each field is an `Option`. -/
structure PartialDeployment where
  type : Option String := none
  name : Option String := none
  of : Option StrOrList := none
  description : Option String := none
  modules : Option (List ModuleRef) := none
  template : Option String := none
  load : Option (List String) := none
deriving DecidableEq, Repr

/-- The JS shallow merge `{...service, ...tmpl}` from src/index.ts lines
95-98: every key present on `tmpl` overrides the one on `service`. -/
def mergeTemplate (service tmpl : PartialDeployment) : PartialDeployment where
  type := (tmpl.type).orElse fun _ => service.type
  name := (tmpl.name).orElse fun _ => service.name
  of := (tmpl.of).orElse fun _ => service.of
  description := (tmpl.description).orElse fun _ => service.description
  modules := (tmpl.modules).orElse fun _ => service.modules
  template := (tmpl.template).orElse fun _ => service.template
  load := (tmpl.load).orElse fun _ => service.load

/-- The raw manifest (`DeploymentConfig` before resolution). The template
table `Dictionary<T>` is an association list. -/
structure RawDeploymentConfig where
  version : Int
  templates : Option (List (String × PartialDeployment))
  deployment : List PartialDeployment
deriving DecidableEq, Repr

/-- Resolution of one deployment entry in `_loadConfig` (lines 89-102):
if the entry carries a (truthy, i.e. non-empty) `template` field, the
template table must exist and contain it, and the entry is replaced by the
shallow merge; otherwise the entry passes through unchanged. -/
def resolveEntry (templates : Option (List (String × PartialDeployment)))
    (service : PartialDeployment) : Except String PartialDeployment :=
  match service.template with
  | some t =>
    if t = "" then .ok service
    else
      match templates with
      | none => .error ("No template defined, but found a referencing template " ++ t)
      | some tbl =>
        match tbl.lookup t with
        | none => .error ("Expected template " ++ t ++ " to be defined on the templates.")
        | some tmpl => .ok (mergeTemplate service tmpl)
  | none => .ok service

/-- `Array.prototype.map` where the body may throw: first failure wins. -/
def mapE (f : α → Except String β) : List α → Except String (List β)
  | [] => .ok []
  | a :: as =>
    match f a with
    | .error e => .error e
    | .ok b =>
      match mapE f as with
      | .error e => .error e
      | .ok bs => .ok (b :: bs)

/-- `_loadConfig` resolution pass: replace every entry by its resolved
form. -/
def loadConfig (config : RawDeploymentConfig) : Except String RawDeploymentConfig :=
  match mapE (resolveEntry config.templates) config.deployment with
  | .error e => .error e
  | .ok resolved => .ok { config with deployment := resolved }

/-- `_moduleName` (lines 107-109): a bare string names itself, an override
pair is named by its `name` field. -/
def moduleName : ModuleRef → String
  | .str n => n
  | .load n _ => n

/-- `_getLoadedCommand` (lines 111-117): the command list a module reference
contributes — the entry's own `of` for a bare string, the override's `of`
otherwise. -/
def getLoadedCommand (d : Deployment) : ModuleRef → List String
  | .str _ => toArray d.of
  | .load _ o => toArray o

/-- The post-resolution manifest as the executor sees it (`this.config`),
with fully formed entries. -/
structure DeploymentConfig where
  version : Int
  templates : Option (List (String × PartialDeployment))
  deployment : List Deployment
deriving DecidableEq, Repr

/-- `cached.add(command)` iterated over a command list (lines 133-134). -/
def addModuleCommands (cached : Finset String) (cmds : List String) : Finset String :=
  cmds.foldl (fun s c => insert c s) cached

/-- Body of the aggregation loop for one module reference (lines 127-134):
fetch the cached set (creating an empty one if absent), add the module's
commands, store the result under the module's name. -/
def aggStep (d : Deployment) (m : ModuleRef)
    (acc : String → Option (Finset String)) : String → Option (Finset String) :=
  fun n =>
    if n = moduleName m then
      some (addModuleCommands ((acc (moduleName m)).getD ∅) (getLoadedCommand d m))
    else acc n

/-- Inner loop of aggregation pass one (lines 126-135): fold the modules of
one deployment entry into the accumulated per-name command map. -/
def aggModules (d : Deployment) (ms : List ModuleRef)
    (acc : String → Option (Finset String)) : String → Option (Finset String) :=
  match ms with
  | [] => acc
  | m :: rest => aggModules d rest (aggStep d m acc)

/-- Outer loop of aggregation pass one (lines 125-136). -/
def aggDeployments (ds : List Deployment)
    (acc : String → Option (Finset String)) : String → Option (Finset String) :=
  match ds with
  | [] => acc
  | d :: rest => aggDeployments rest (aggModules d d.modules acc)

/-- The aggregated `loadedCommands` map of `_verifyDependencies` pass one:
module name to the set of commands contributed anywhere in the manifest
(`none` when the name never occurs). -/
def loadedCommands (ds : List Deployment) : String → Option (Finset String) :=
  aggDeployments ds (fun _ => none)

/-- A `for … of` loop whose body may throw: stops at the first failure. -/
def forEachE : List α → (α → Except String Unit) → Except String Unit
  | [], _ => .ok ()
  | a :: as, f =>
    match f a with
    | .ok _ => forEachE as f
    | .error e => .error e

/-- The message of the assert on line 153. -/
def depErrorMsg (depName cmd : String) : String :=
  "Expected module " ++ depName ++ " command " ++ cmd ++ " to be loaded."

/-- The assert on line 153 for one command of one dependency:
`assert(cached && cached.has(dependentCommand), …)`. -/
def checkOneCommand (cached : Option (Finset String)) (depName c : String) :
    Except String Unit :=
  match cached with
  | some s => if c ∈ s then .ok () else .error (depErrorMsg depName c)
  | none => .error (depErrorMsg depName c)

/-- Check of a single dependency declaration (lines 149-155): every command
in the normalized `of` must be present in the aggregated set for the
dependency's name. -/
def checkDependency (loaded : String → Option (Finset String))
    (dep : DependencyDecl) : Except String Unit :=
  forEachE (toArray dep.of) fun c => checkOneCommand (loaded dep.name) dep.name c

/-- Pass-two body for one module reference (lines 140-156): its declaration
must be cached, and if it declares dependencies each one is checked. -/
def checkModule (configCache : List (String × ModuleConfig))
    (loaded : String → Option (Finset String)) (m : ModuleRef) : Except String Unit :=
  match configCache.lookup (moduleName m) with
  | none => .error "assertion failed: config"
  | some cfg =>
    match cfg.dependencies with
    | none => .ok ()
    | some deps =>
      if deps.isEmpty then .ok ()
      else forEachE deps (checkDependency loaded)

/-- `_verifyDependencies` (lines 119-158): asserts the manifest and a
non-empty declaration cache, aggregates commands (pass one), then checks
every declared dependency of every listed module (pass two). -/
def verifyDependencies (configCache : List (String × ModuleConfig))
    (config : Option DeploymentConfig) : Except String Unit :=
  match config with
  | none => .error "assertion failed: config"
  | some cfg =>
    if configCache.isEmpty then .error "Expected that config cache has already been loaded."
    else
      let loaded := loadedCommands cfg.deployment
      forEachE cfg.deployment fun d => forEachE d.modules (checkModule configCache loaded)

/-- Observable hook invocations during `run`.  A `load` event records the
artifact path handed to the runner's `onLoad`
(`path.join(modulePath, load.toLowerCase())`) together with the name of the
deployment entry passed alongside it; `run` is the invocation of the
runner's run hook. -/
inductive Event where
  | load (artifactPath : String) (deploymentName : String)
  | run
deriving DecidableEq, Repr

/-- The executor instance's mutable state: `this.config`,
`this.configCache`, `this.runnerCache` (runners keyed by `type`; only the
key matters to control flow, so the value is the runner's own `type` tag)
and `this.modulePathCache`. -/
structure ExecState where
  config : Option DeploymentConfig
  configCache : List (String × ModuleConfig)
  runnerCache : List (String × String)
  modulePathCache : List (String × String)
deriving DecidableEq, Repr

/-- `addRunner` (lines 63-66): `Map.set` keyed by the runner's `type`,
overwriting in place. -/
def addRunner (cache : List (String × String)) (rtype : String) : List (String × String) :=
  if cache.any (fun p => p.1 == rtype) then
    cache.map (fun p => if p.1 == rtype then (p.1, rtype) else p)
  else cache ++ [(rtype, rtype)]

/-- JS truthiness of the `verify` parameter: an omitted argument is
`undefined` (modelled `none`) and is falsy. -/
def truthy : Option Bool → Bool
  | none => false
  | some b => b

/-- An oracle giving the outcome of each hook invocation; `true` means the
hook completes, `false` that it rejects. -/
def allHooksOk : Event → Bool := fun _ => true

/-- `load.toLowerCase()` from line 185, modelled on the character data so
that it evaluates by reduction. -/
def lowerStr (s : String) : String := ⟨s.data.map Char.toLower⟩

/-- Inner loop of the executor (lines 181-188): for each command, look up
the module's path (assert), invoke the load hook, stop at the first
failure.  Returns the invoked load events and the error, if any. -/
def loadCommands (hookOk : Event → Bool) (pathCache : List (String × String))
    (dname : String) (modName : String) : List String → List Event × Option String
  | [] => ([], none)
  | c :: rest =>
    match pathCache.lookup modName with
    | none => ([], some "assertion failed: modulePath")
    | some p =>
      let ev := Event.load (p ++ "/" ++ lowerStr c) dname
      if hookOk ev then
        let r := loadCommands hookOk pathCache dname modName rest
        (ev :: r.1, r.2)
      else ([ev], some "load hook rejected")

/-- Middle loop of the executor (lines 174-189): compute each module's
command list (inline copy of `_getLoadedCommand`) and load its commands. -/
def loadModules (hookOk : Event → Bool) (pathCache : List (String × String))
    (d : Deployment) : List ModuleRef → List Event × Option String
  | [] => ([], none)
  | m :: rest =>
    let toLoad :=
      match m with
      | .str _ => toArray d.of
      | .load _ o => toArray o
    let r := loadCommands hookOk pathCache d.name (moduleName m) toLoad
    match r.2 with
    | some e => (r.1, some e)
    | none =>
      let r2 := loadModules hookOk pathCache d rest
      (r.1 ++ r2.1, r2.2)

/-- The first deployment entry whose `name` matches (the `for` loop on line
168 processes only the first match and returns). -/
def findDeployment (cfg : DeploymentConfig) (name : String) : Option Deployment :=
  cfg.deployment.find? fun d => d.name == name

/-- `run` after the optional verification step (lines 165-196): assert the
manifest, clear the declaration cache, find the matching entry (silently
returning when there is none), assert and clear the runner, invoke the load
hooks, then the run hook, and clear the path cache on success. -/
def runAfterVerify (st : ExecState) (name : String) (hookOk : Event → Bool) :
    Except String Unit × ExecState × List Event :=
  match st.config with
  | none => (.error "assertion failed: config", st, [])
  | some cfg =>
    let st1 := { st with configCache := [] }
    match findDeployment cfg name with
    | none => (.ok (), st1, [])
    | some d =>
      match st1.runnerCache.lookup d.type with
      | none => (.error "assertion failed: runner", st1, [])
      | some _ =>
        let st2 := { st1 with runnerCache := [] }
        let r := loadModules hookOk st2.modulePathCache d d.modules
        match r.2 with
        | some e => (.error e, st2, r.1)
        | none =>
          if hookOk .run then
            (.ok (), { st2 with modulePathCache := [] }, r.1 ++ [.run])
          else (.error "run hook rejected", st2, r.1 ++ [.run])

/-- `run` (lines 160-196): verify when `verify` is truthy, then execute. -/
def run (st : ExecState) (name : String) (verify : Option Bool)
    (hookOk : Event → Bool) : Except String Unit × ExecState × List Event :=
  if truthy verify then
    match verifyDependencies st.configCache st.config with
    | .error e => (.error e, st, [])
    | .ok _ => runAfterVerify st name hookOk
  else runAfterVerify st name hookOk

/-! ## Spec-side descriptions of the aggregation -/

/-- The commands one module reference contributes to the aggregate for the
name `n`, as §4.3 of the spec describes them: a reference named `n`
contributes its command list, any other reference contributes nothing. -/
def moduleContrib (n : String) (d : Deployment) (m : ModuleRef) : List String :=
  if moduleName m = n then getLoadedCommand d m else []

/-- All commands contributed for the name `n` across the whole manifest. -/
def contribs (ds : List Deployment) (n : String) : List String :=
  ds.flatMap fun d => d.modules.flatMap (moduleContrib n d)

/-- Every module name listed by some deployment entry of the manifest. -/
def deployedNames (ds : List Deployment) : List String :=
  ds.flatMap fun d => d.modules.map moduleName

/-- The spec's satisfiability condition (§4.4): every command required by a
declared dependency of any listed module is contributed for the
dependency's name by some entry of the manifest. -/
def depsSatisfied (cache : List (String × ModuleConfig)) (cfg : DeploymentConfig) : Prop :=
  ∀ d ∈ cfg.deployment, ∀ m ∈ d.modules, ∀ mc, cache.lookup (moduleName m) = some mc →
    ∀ deps, mc.dependencies = some deps → ∀ dep ∈ deps, ∀ c ∈ toArray dep.of,
      c ∈ contribs cfg.deployment dep.name

/-! ## Characterization of the aggregated command map -/

theorem addModuleCommands_eq (cached : Finset String) (cmds : List String) :
    addModuleCommands cached cmds = cached ∪ cmds.toFinset := by
  induction cmds generalizing cached with
  | nil => simp [addModuleCommands]
  | cons c rest ih =>
    show addModuleCommands (insert c cached) rest = _
    rw [ih]
    ext x
    simp

theorem flatMap_moduleContrib_nil {n : String} {d : Deployment} {ms : List ModuleRef}
    (h : n ∉ ms.map moduleName) : ms.flatMap (moduleContrib n d) = [] := by
  induction ms with
  | nil => rfl
  | cons m rest ih =>
    simp only [List.map_cons, List.mem_cons] at h
    push_neg at h
    rw [List.flatMap_cons, moduleContrib, if_neg (fun hc => h.1 hc.symm), ih h.2,
      List.nil_append]

theorem aggStep_eq (d : Deployment) (m : ModuleRef)
    (acc : String → Option (Finset String)) (n : String) :
    aggStep d m acc n =
      if n = moduleName m then
        some (((acc n).getD ∅) ∪ (getLoadedCommand d m).toFinset)
      else acc n := by
  rw [aggStep]
  by_cases h : n = moduleName m
  · rw [if_pos h, if_pos h, addModuleCommands_eq, h]
  · rw [if_neg h, if_neg h]

theorem aggModules_eq (d : Deployment) (ms : List ModuleRef)
    (acc : String → Option (Finset String)) (n : String) :
    aggModules d ms acc n =
      if n ∈ ms.map moduleName then
        some (((acc n).getD ∅) ∪ (ms.flatMap (moduleContrib n d)).toFinset)
      else acc n := by
  induction ms generalizing acc with
  | nil => simp [aggModules]
  | cons m rest ih =>
    have hstep : aggModules d (m :: rest) acc = aggModules d rest (aggStep d m acc) := rfl
    rw [hstep, ih]
    by_cases heq : n = moduleName m
    · have hmc : moduleContrib n d m = getLoadedCommand d m := by
        rw [moduleContrib, if_pos heq.symm]
      have hcons : n ∈ (m :: rest).map moduleName := by
        simp [heq]
      by_cases hmem : n ∈ rest.map moduleName
      · rw [if_pos hmem, if_pos hcons, aggStep_eq, if_pos heq, List.flatMap_cons, hmc]
        simp [List.toFinset_append, Finset.union_assoc]
      · rw [if_neg hmem, if_pos hcons, aggStep_eq, if_pos heq, List.flatMap_cons, hmc,
          flatMap_moduleContrib_nil hmem, List.append_nil]
    · have hmc : moduleContrib n d m = [] := by
        rw [moduleContrib, if_neg (fun hc => heq hc.symm)]
      have hcond : (n ∈ (m :: rest).map moduleName) ↔ (n ∈ rest.map moduleName) := by
        simp [heq]
      by_cases hmem : n ∈ rest.map moduleName
      · rw [if_pos hmem, if_pos (hcond.mpr hmem), aggStep_eq, if_neg heq,
          List.flatMap_cons, hmc, List.nil_append]
      · rw [if_neg hmem, if_neg (fun h => hmem (hcond.mp h)), aggStep_eq, if_neg heq]

theorem mem_deployedNames_of_mem_contribs {ds : List Deployment} {n c : String}
    (h : c ∈ contribs ds n) : n ∈ deployedNames ds := by
  simp only [contribs, List.mem_flatMap] at h
  obtain ⟨d, hd, m, hmm, hc⟩ := h
  by_cases hn : moduleName m = n
  · simp only [deployedNames, List.mem_flatMap]
    exact ⟨d, hd, List.mem_map.mpr ⟨m, hmm, hn⟩⟩
  · rw [moduleContrib, if_neg hn] at hc
    exact absurd hc (List.not_mem_nil c)

theorem aggDeployments_eq (ds : List Deployment)
    (acc : String → Option (Finset String)) (n : String) :
    aggDeployments ds acc n =
      if n ∈ deployedNames ds then
        some (((acc n).getD ∅) ∪ (contribs ds n).toFinset)
      else acc n := by
  induction ds generalizing acc with
  | nil => simp [aggDeployments, deployedNames, contribs]
  | cons d rest ih =>
    have hstep : aggDeployments (d :: rest) acc = aggDeployments rest (aggModules d d.modules acc) := rfl
    rw [hstep, ih]
    have hnames : n ∈ deployedNames (d :: rest) ↔
        n ∈ d.modules.map moduleName ∨ n ∈ deployedNames rest := by
      simp [deployedNames]
    have hcontrib : contribs (d :: rest) n =
        d.modules.flatMap (moduleContrib n d) ++ contribs rest n := by
      simp [contribs]
    have hrest : n ∉ deployedNames rest → contribs rest n = [] := by
      intro hr
      by_contra hne
      obtain ⟨a, ha⟩ := List.exists_mem_of_ne_nil _ hne
      exact hr (mem_deployedNames_of_mem_contribs ha)
    by_cases hd : n ∈ d.modules.map moduleName
    · by_cases hr : n ∈ deployedNames rest
      · rw [if_pos hr, aggModules_eq, if_pos hd, if_pos (hnames.mpr (Or.inl hd)), hcontrib]
        simp [List.toFinset_append, Finset.union_assoc]
      · rw [if_neg hr, aggModules_eq, if_pos hd, if_pos (hnames.mpr (Or.inl hd)), hcontrib,
          hrest hr, List.append_nil]
    · by_cases hr : n ∈ deployedNames rest
      · rw [if_pos hr, aggModules_eq, if_neg hd, if_pos (hnames.mpr (Or.inr hr)), hcontrib,
          flatMap_moduleContrib_nil hd, List.nil_append]
      · rw [if_neg hr, aggModules_eq, if_neg hd,
          if_neg (fun h => (hnames.mp h).elim hd hr)]

theorem loadedCommands_eq (ds : List Deployment) (n : String) :
    loadedCommands ds n =
      if n ∈ deployedNames ds then some (contribs ds n).toFinset else none := by
  rw [loadedCommands, aggDeployments_eq]
  by_cases h : n ∈ deployedNames ds <;> simp [h]

/-! ## Lemmas about the throwing loops -/

theorem forEachE_ok_iff {l : List α} {f : α → Except String Unit} :
    forEachE l f = .ok () ↔ ∀ a ∈ l, f a = .ok () := by
  induction l with
  | nil => simp [forEachE]
  | cons a as ih =>
    rw [forEachE]
    cases hfa : f a with
    | ok u =>
      cases u
      simpa [hfa] using ih
    | error e => simp [hfa]

theorem forEachE_error {l : List α} {f : α → Except String Unit} {e : String}
    (h : forEachE l f = .error e) : ∃ a ∈ l, f a = .error e := by
  induction l with
  | nil => simp [forEachE] at h
  | cons a as ih =>
    rw [forEachE] at h
    cases hfa : f a with
    | ok u =>
      rw [hfa] at h
      obtain ⟨b, hb, hfb⟩ := ih h
      exact ⟨b, List.mem_cons_of_mem a hb, hfb⟩
    | error e2 =>
      rw [hfa] at h
      cases h
      exact ⟨a, List.mem_cons_self a as, hfa⟩

theorem forEachE_map {l : List α} {g : α → β} {f : β → Except String Unit} :
    forEachE (l.map g) f = forEachE l (fun a => f (g a)) := by
  induction l with
  | nil => rfl
  | cons a as ih =>
    rw [List.map_cons, forEachE, forEachE]
    cases f (g a) <;> simp [ih]

/-! ## What verification computes -/

theorem checkOneCommand_ok_iff {ds : List Deployment} {x c : String} :
    checkOneCommand (loadedCommands ds x) x c = .ok () ↔ c ∈ contribs ds x := by
  rw [loadedCommands_eq]
  by_cases hx : x ∈ deployedNames ds
  · rw [if_pos hx]
    by_cases hc : c ∈ contribs ds x <;> simp [checkOneCommand, List.mem_toFinset, hc]
  · rw [if_neg hx]
    simp only [checkOneCommand]
    constructor
    · intro h
      exact absurd h (fun hh => Except.noConfusion hh)
    · intro hc
      exact absurd (mem_deployedNames_of_mem_contribs hc) hx

theorem checkOneCommand_error {cached : Option (Finset String)} {x c e : String}
    (h : checkOneCommand cached x c = .error e) : e = depErrorMsg x c := by
  cases cached with
  | none =>
    simp only [checkOneCommand, Except.error.injEq] at h
    exact h.symm
  | some s =>
    simp only [checkOneCommand] at h
    by_cases hc : c ∈ s
    · rw [if_pos hc] at h
      exact Except.noConfusion h
    · rw [if_neg hc] at h
      simp only [Except.error.injEq] at h
      exact h.symm

theorem checkDependency_ok_iff {ds : List Deployment} {dep : DependencyDecl} :
    checkDependency (loadedCommands ds) dep = .ok () ↔
      ∀ c ∈ toArray dep.of, c ∈ contribs ds dep.name := by
  rw [checkDependency, forEachE_ok_iff]
  constructor <;> intro h c hc
  · exact checkOneCommand_ok_iff.mp (h c hc)
  · exact checkOneCommand_ok_iff.mpr (h c hc)

theorem checkModule_ok_iff {cache : List (String × ModuleConfig)} {ds : List Deployment}
    {m : ModuleRef} {mc : ModuleConfig} (hm : cache.lookup (moduleName m) = some mc) :
    checkModule cache (loadedCommands ds) m = .ok () ↔
      ∀ deps, mc.dependencies = some deps → ∀ dep ∈ deps, ∀ c ∈ toArray dep.of,
        c ∈ contribs ds dep.name := by
  simp only [checkModule, hm]
  cases hdeps : mc.dependencies with
  | none => simp
  | some deps =>
    simp only []
    by_cases he : deps.isEmpty
    · rw [if_pos he]
      have hnil : deps = [] := List.isEmpty_iff.mp he
      subst hnil
      simp
    · rw [if_neg he, forEachE_ok_iff]
      constructor
      · intro h deps2 hd2
        cases hd2
        intro dep hdep
        exact checkDependency_ok_iff.mp (h dep hdep)
      · intro h dep hdep
        exact checkDependency_ok_iff.mpr (h deps rfl dep hdep)

theorem verifyDependencies_ok_iff {cache : List (String × ModuleConfig)}
    {cfg : DeploymentConfig} (hne : cache ≠ [])
    (hdecl : ∀ d ∈ cfg.deployment, ∀ m ∈ d.modules,
      (cache.lookup (moduleName m)).isSome) :
    verifyDependencies cache (some cfg) = .ok () ↔ depsSatisfied cache cfg := by
  rw [verifyDependencies]
  rw [if_neg (by simp [List.isEmpty_iff, hne])]
  rw [forEachE_ok_iff]
  constructor
  · intro h d hd m hm mc hmc deps hdeps dep hdep c hc
    have h2 := forEachE_ok_iff.mp (h d hd) m hm
    exact (checkModule_ok_iff hmc).mp h2 deps hdeps dep hdep c hc
  · intro h d hd
    rw [forEachE_ok_iff]
    intro m hm
    obtain ⟨mc, hmc⟩ := Option.isSome_iff_exists.mp (hdecl d hd m hm)
    exact (checkModule_ok_iff hmc).mpr (fun deps hdeps => h d hd m hm mc hmc deps hdeps)

theorem verifyDependencies_error_shape {cache : List (String × ModuleConfig)}
    {cfg : DeploymentConfig} {e : String} (hne : cache ≠ [])
    (hdecl : ∀ d ∈ cfg.deployment, ∀ m ∈ d.modules,
      (cache.lookup (moduleName m)).isSome)
    (h : verifyDependencies cache (some cfg) = .error e) :
    ∃ d ∈ cfg.deployment, ∃ m ∈ d.modules, ∃ mc deps dep,
      cache.lookup (moduleName m) = some mc ∧ mc.dependencies = some deps ∧
      dep ∈ deps ∧ ∃ c ∈ toArray dep.of, e = depErrorMsg dep.name c := by
  rw [verifyDependencies, if_neg (by simp [List.isEmpty_iff, hne])] at h
  obtain ⟨d, hd, h2⟩ := forEachE_error h
  obtain ⟨m, hm, h3⟩ := forEachE_error h2
  obtain ⟨mc, hmc⟩ := Option.isSome_iff_exists.mp (hdecl d hd m hm)
  simp only [checkModule, hmc] at h3
  cases hdeps : mc.dependencies with
  | none =>
    rw [hdeps] at h3
    exact absurd h3 (fun hx => Except.noConfusion hx)
  | some deps =>
    rw [hdeps] at h3
    simp only [] at h3
    by_cases he : deps.isEmpty
    · rw [if_pos he] at h3
      exact absurd h3 (fun hx => Except.noConfusion hx)
    · rw [if_neg he] at h3
      obtain ⟨dep, hdep, h4⟩ := forEachE_error h3
      rw [checkDependency] at h4
      obtain ⟨c, hc, h5⟩ := forEachE_error h4
      exact ⟨d, hd, m, hm, mc, deps, dep, hmc, hdeps, hdep, c, hc,
        checkOneCommand_error h5⟩

theorem verify_fails_of_missing_decl {cache : List (String × ModuleConfig)}
    {cfg : DeploymentConfig} {d : Deployment} {m : ModuleRef}
    (hd : d ∈ cfg.deployment) (hm : m ∈ d.modules)
    (hmiss : cache.lookup (moduleName m) = none) :
    verifyDependencies cache (some cfg) ≠ .ok () := by
  intro h
  rw [verifyDependencies] at h
  by_cases he : cache.isEmpty
  · rw [if_pos he] at h
    exact Except.noConfusion h
  · rw [if_neg he] at h
    have h2 := forEachE_ok_iff.mp (forEachE_ok_iff.mp h d hd) m hm
    rw [checkModule, hmiss] at h2
    exact Except.noConfusion h2

/-! ## What the executor computes -/

/-- The load events a matched deployment entry gives rise to, in manifest
module order and then command order: one per (module, command) pair, with
the lowercased command appended to the module's cached path. -/
def entryLoads (pathCache : List (String × String)) (d : Deployment) : List Event :=
  d.modules.flatMap fun m =>
    (getLoadedCommand d m).map fun c =>
      Event.load (((pathCache.lookup (moduleName m)).getD "") ++ "/" ++ lowerStr c) d.name

theorem loadCommands_ok {hookOk : Event → Bool} {pc : List (String × String)}
    {dname mn : String} {cmds : List String} {evs : List Event}
    (h : loadCommands hookOk pc dname mn cmds = (evs, none)) :
    evs = cmds.map fun c =>
      Event.load (((pc.lookup mn).getD "") ++ "/" ++ lowerStr c) dname := by
  induction cmds generalizing evs with
  | nil =>
    simp only [loadCommands, Prod.mk.injEq] at h
    rw [← h.1, List.map_nil]
  | cons c rest ih =>
    simp only [loadCommands] at h
    cases hp : pc.lookup mn with
    | none =>
      rw [hp] at h
      simp only [Prod.mk.injEq] at h
      exact absurd h.2 (fun hx => Option.noConfusion hx)
    | some p =>
      rw [hp] at h
      simp only [] at h
      by_cases hev : hookOk (Event.load (p ++ "/" ++ lowerStr c) dname)
      · rw [if_pos hev] at h
        simp only [Prod.mk.injEq] at h
        have hrest : loadCommands hookOk pc dname mn rest =
            ((loadCommands hookOk pc dname mn rest).1, none) := by
          rw [← h.2]
        rw [← h.1, ih hrest, List.map_cons, hp]
        simp
      · rw [if_neg hev] at h
        simp only [Prod.mk.injEq] at h
        exact absurd h.2 (fun hx => Option.noConfusion hx)

theorem loadModules_ok {hookOk : Event → Bool} {pc : List (String × String)}
    {d : Deployment} {ms : List ModuleRef} {evs : List Event}
    (h : loadModules hookOk pc d ms = (evs, none)) :
    evs = ms.flatMap fun m =>
      (getLoadedCommand d m).map fun c =>
        Event.load (((pc.lookup (moduleName m)).getD "") ++ "/" ++ lowerStr c) d.name := by
  induction ms generalizing evs with
  | nil =>
    simp only [loadModules, Prod.mk.injEq] at h
    rw [← h.1, List.flatMap_nil]
  | cons m rest ih =>
    have hbridge : loadModules hookOk pc d (m :: rest) =
        (let r := loadCommands hookOk pc d.name (moduleName m) (getLoadedCommand d m);
         match r.2 with
         | some e => (r.1, some e)
         | none =>
           let r2 := loadModules hookOk pc d rest
           (r.1 ++ r2.1, r2.2)) := by
      cases m <;> rfl
    rw [hbridge] at h
    simp only [] at h
    cases hr : (loadCommands hookOk pc d.name (moduleName m) (getLoadedCommand d m)).2 with
    | some e =>
      rw [hr] at h
      simp only [Prod.mk.injEq] at h
      exact absurd h.2 (fun hx => Option.noConfusion hx)
    | none =>
      rw [hr] at h
      simp only [Prod.mk.injEq] at h
      have hfirst : loadCommands hookOk pc d.name (moduleName m) (getLoadedCommand d m) =
          ((loadCommands hookOk pc d.name (moduleName m) (getLoadedCommand d m)).1, none) := by
        rw [← hr]
      have hrest : loadModules hookOk pc d rest =
          ((loadModules hookOk pc d rest).1, none) := by
        rw [← h.2]
      rw [List.flatMap_cons, ← h.1, loadCommands_ok hfirst, ih hrest]

/-- Every event produced by the load phase is a load event. -/
theorem entryLoads_no_run {pc : List (String × String)} {d : Deployment} :
    Event.run ∉ entryLoads pc d := by
  intro h
  simp only [entryLoads, List.mem_flatMap, List.mem_map] at h
  obtain ⟨m, _, c, _, hc⟩ := h
  exact Event.noConfusion hc

/-! ## Phase lemmas for `run` -/

theorem runAfterVerify_no_config {st : ExecState} {name : String} {hookOk : Event → Bool}
    (h : st.config = none) :
    runAfterVerify st name hookOk = (.error "assertion failed: config", st, []) := by
  simp only [runAfterVerify, h]

theorem runAfterVerify_no_match {st : ExecState} {name : String} {hookOk : Event → Bool}
    {cfg : DeploymentConfig} (hc : st.config = some cfg)
    (h : findDeployment cfg name = none) :
    runAfterVerify st name hookOk = (.ok (), { st with configCache := [] }, []) := by
  simp only [runAfterVerify, hc, h]

theorem runAfterVerify_no_runner {st : ExecState} {name : String} {hookOk : Event → Bool}
    {cfg : DeploymentConfig} {d : Deployment} (hc : st.config = some cfg)
    (hd : findDeployment cfg name = some d)
    (hr : st.runnerCache.lookup d.type = none) :
    runAfterVerify st name hookOk =
      (.error "assertion failed: runner", { st with configCache := [] }, []) := by
  simp only [runAfterVerify, hc, hd, hr]

theorem runAfterVerify_load_error {st : ExecState} {name : String} {hookOk : Event → Bool}
    {cfg : DeploymentConfig} {d : Deployment} {r : String} {evs : List Event} {e : String}
    (hc : st.config = some cfg) (hd : findDeployment cfg name = some d)
    (hr : st.runnerCache.lookup d.type = some r)
    (hl : loadModules hookOk st.modulePathCache d d.modules = (evs, some e)) :
    runAfterVerify st name hookOk =
      (.error e, { st with configCache := [], runnerCache := [] }, evs) := by
  simp only [runAfterVerify, hc, hd, hr, hl]

theorem runAfterVerify_runhook_error {st : ExecState} {name : String} {hookOk : Event → Bool}
    {cfg : DeploymentConfig} {d : Deployment} {r : String} {evs : List Event}
    (hc : st.config = some cfg) (hd : findDeployment cfg name = some d)
    (hr : st.runnerCache.lookup d.type = some r)
    (hl : loadModules hookOk st.modulePathCache d d.modules = (evs, none))
    (hrun : hookOk .run = false) :
    runAfterVerify st name hookOk =
      (.error "run hook rejected", { st with configCache := [], runnerCache := [] },
        evs ++ [.run]) := by
  simp only [runAfterVerify, hc, hd, hr, hl, hrun, Bool.false_eq_true, if_false]

theorem runAfterVerify_success {st : ExecState} {name : String} {hookOk : Event → Bool}
    {cfg : DeploymentConfig} {d : Deployment} {r : String} {evs : List Event}
    (hc : st.config = some cfg) (hd : findDeployment cfg name = some d)
    (hr : st.runnerCache.lookup d.type = some r)
    (hl : loadModules hookOk st.modulePathCache d d.modules = (evs, none))
    (hrun : hookOk .run = true) :
    runAfterVerify st name hookOk =
      (.ok (), { st with configCache := [], runnerCache := [], modulePathCache := [] },
        evs ++ [.run]) := by
  simp only [runAfterVerify, hc, hd, hr, hl, hrun, if_true]

theorem run_verify_error {st : ExecState} {name : String} {hookOk : Event → Bool} {e : String}
    (h : verifyDependencies st.configCache st.config = .error e) :
    run st name (some true) hookOk = (.error e, st, []) := by
  simp only [run, truthy, if_true, h]

theorem run_verify_ok {st : ExecState} {name : String} {hookOk : Event → Bool}
    (h : verifyDependencies st.configCache st.config = .ok ()) :
    run st name (some true) hookOk = runAfterVerify st name hookOk := by
  simp only [run, truthy, if_true, h]

theorem run_skip_verify {st : ExecState} {name : String} {hookOk : Event → Bool}
    {v : Option Bool} (h : truthy v = false) :
    run st name v hookOk = runAfterVerify st name hookOk := by
  simp only [run, h, Bool.false_eq_true, if_false]

/-! ## Scalar-to-sequence normalization -/

/-- Replace a scalar `of` by the equivalent singleton sequence (and leave
sequences unchanged). -/
def canonOf (o : StrOrList) : StrOrList := .seq (toArray o)

/-- Apply `canonOf` to a module reference's own `of` field. -/
def canonRef : ModuleRef → ModuleRef
  | .str n => .str n
  | .load n o => .load n (canonOf o)

/-- Apply `canonOf` to a deployment entry's `of` and to all its module
references. -/
def canonDeployment (d : Deployment) : Deployment :=
  { d with of := canonOf d.of, modules := d.modules.map canonRef }

/-- Apply `canonDeployment` to every entry of a manifest. -/
def canonConfig (cfg : DeploymentConfig) : DeploymentConfig :=
  { cfg with deployment := cfg.deployment.map canonDeployment }

/-- Apply `canonConfig` to an executor state's manifest. -/
def canonState (st : ExecState) : ExecState :=
  { st with config := st.config.map canonConfig }

theorem toArray_canonOf (o : StrOrList) : toArray (canonOf o) = toArray o := rfl

theorem moduleName_canonRef (m : ModuleRef) : moduleName (canonRef m) = moduleName m := by
  cases m <;> rfl

theorem getLoadedCommand_canon (d : Deployment) (m : ModuleRef) :
    getLoadedCommand (canonDeployment d) (canonRef m) = getLoadedCommand d m := by
  cases m <;> rfl

theorem moduleContrib_canon (n : String) (d : Deployment) (m : ModuleRef) :
    moduleContrib n (canonDeployment d) (canonRef m) = moduleContrib n d m := by
  rw [moduleContrib, moduleContrib, moduleName_canonRef, getLoadedCommand_canon]

theorem modules_contrib_canon (n : String) (d : Deployment) (ms : List ModuleRef) :
    (ms.map canonRef).flatMap (moduleContrib n (canonDeployment d)) =
      ms.flatMap (moduleContrib n d) := by
  induction ms with
  | nil => rfl
  | cons m rest ih =>
    rw [List.map_cons, List.flatMap_cons, List.flatMap_cons, moduleContrib_canon, ih]

theorem contribs_cons (d : Deployment) (rest : List Deployment) (n : String) :
    contribs (d :: rest) n = d.modules.flatMap (moduleContrib n d) ++ contribs rest n := by
  simp only [contribs, List.flatMap_cons]

theorem deployedNames_cons (d : Deployment) (rest : List Deployment) :
    deployedNames (d :: rest) = d.modules.map moduleName ++ deployedNames rest := by
  simp only [deployedNames, List.flatMap_cons]

theorem contribs_canon (ds : List Deployment) (n : String) :
    contribs (ds.map canonDeployment) n = contribs ds n := by
  induction ds with
  | nil => rfl
  | cons d rest ih =>
    rw [show (d :: rest).map canonDeployment = canonDeployment d :: rest.map canonDeployment
        from rfl, contribs_cons, contribs_cons, ih]
    have hmods : (canonDeployment d).modules = d.modules.map canonRef := rfl
    rw [hmods, modules_contrib_canon]

theorem deployedNames_canon (ds : List Deployment) :
    deployedNames (ds.map canonDeployment) = deployedNames ds := by
  induction ds with
  | nil => rfl
  | cons d rest ih =>
    rw [show (d :: rest).map canonDeployment = canonDeployment d :: rest.map canonDeployment
        from rfl, deployedNames_cons, deployedNames_cons, ih]
    have hmods : (canonDeployment d).modules = d.modules.map canonRef := rfl
    rw [hmods, List.map_map]
    congr 1
    exact List.map_congr_left fun m _ => moduleName_canonRef m

theorem loadedCommands_canon (ds : List Deployment) :
    loadedCommands (ds.map canonDeployment) = loadedCommands ds := by
  funext n
  rw [loadedCommands_eq, loadedCommands_eq, contribs_canon, deployedNames_canon]

theorem forEachE_congr {l : List α} {f g : α → Except String Unit}
    (h : ∀ a ∈ l, f a = g a) : forEachE l f = forEachE l g := by
  induction l with
  | nil => rfl
  | cons a as ih =>
    rw [forEachE, forEachE, h a (List.mem_cons_self a as)]
    cases g a with
    | ok u => exact ih fun b hb => h b (List.mem_cons_of_mem a hb)
    | error e => rfl

theorem checkModule_canonRef (cache : List (String × ModuleConfig))
    (loaded : String → Option (Finset String)) (m : ModuleRef) :
    checkModule cache loaded (canonRef m) = checkModule cache loaded m := by
  rw [checkModule, checkModule, moduleName_canonRef]

theorem verifyDependencies_canon (cache : List (String × ModuleConfig))
    (cfg : DeploymentConfig) :
    verifyDependencies cache (some (canonConfig cfg)) =
      verifyDependencies cache (some cfg) := by
  rw [verifyDependencies, verifyDependencies]
  by_cases he : cache.isEmpty
  · rw [if_pos he, if_pos he]
  · rw [if_neg he, if_neg he]
    have hdep : (canonConfig cfg).deployment = cfg.deployment.map canonDeployment := rfl
    rw [hdep, forEachE_map, loadedCommands_canon]
    refine forEachE_congr fun d _ => ?_
    have hmods : (canonDeployment d).modules = d.modules.map canonRef := rfl
    rw [hmods, forEachE_map]
    exact forEachE_congr fun m _ => checkModule_canonRef cache _ m

theorem loadModules_canon {hookOk : Event → Bool} {pc : List (String × String)}
    {d : Deployment} (ms : List ModuleRef) :
    loadModules hookOk pc (canonDeployment d) (ms.map canonRef) =
      loadModules hookOk pc d ms := by
  induction ms with
  | nil => rfl
  | cons m rest ih =>
    cases m with
    | str n =>
      show (match (loadCommands hookOk pc d.name n (toArray (canonOf d.of))).2 with
        | some e => ((loadCommands hookOk pc d.name n (toArray (canonOf d.of))).1, some e)
        | none =>
          ((loadCommands hookOk pc d.name n (toArray (canonOf d.of))).1 ++
            (loadModules hookOk pc (canonDeployment d) (rest.map canonRef)).1,
            (loadModules hookOk pc (canonDeployment d) (rest.map canonRef)).2)) = _
      rw [toArray_canonOf, ih]
      rfl
    | load n o =>
      show (match (loadCommands hookOk pc d.name n (toArray (canonOf o))).2 with
        | some e => ((loadCommands hookOk pc d.name n (toArray (canonOf o))).1, some e)
        | none =>
          ((loadCommands hookOk pc d.name n (toArray (canonOf o))).1 ++
            (loadModules hookOk pc (canonDeployment d) (rest.map canonRef)).1,
            (loadModules hookOk pc (canonDeployment d) (rest.map canonRef)).2)) = _
      rw [toArray_canonOf, ih]
      rfl

theorem findDeployment_canon (cfg : DeploymentConfig) (name : String) :
    findDeployment (canonConfig cfg) name =
      (findDeployment cfg name).map canonDeployment := by
  rw [findDeployment, findDeployment]
  have hdep : (canonConfig cfg).deployment = cfg.deployment.map canonDeployment := rfl
  rw [hdep]
  induction cfg.deployment with
  | nil => rfl
  | cons d rest ih =>
    rw [List.map_cons, List.find?_cons, List.find?_cons]
    have hname : (canonDeployment d).name = d.name := rfl
    rw [hname]
    cases d.name == name with
    | true => rfl
    | false => exact ih

theorem runAfterVerify_canon (st : ExecState) (name : String) (hookOk : Event → Bool) :
    runAfterVerify (canonState st) name hookOk =
      ((runAfterVerify st name hookOk).1,
       canonState (runAfterVerify st name hookOk).2.1,
       (runAfterVerify st name hookOk).2.2) := by
  cases hc : st.config with
  | none =>
    have hc2 : (canonState st).config = none := by rw [canonState]; rw [hc]; rfl
    rw [runAfterVerify_no_config hc, runAfterVerify_no_config hc2]
  | some cfg =>
    have hc2 : (canonState st).config = some (canonConfig cfg) := by
      rw [canonState]; rw [hc]; rfl
    cases hd : findDeployment cfg name with
    | none =>
      have hd2 : findDeployment (canonConfig cfg) name = none := by
        rw [findDeployment_canon, hd]; rfl
      rw [runAfterVerify_no_match hc hd, runAfterVerify_no_match hc2 hd2]
      rfl
    | some d =>
      have hd2 : findDeployment (canonConfig cfg) name = some (canonDeployment d) := by
        rw [findDeployment_canon, hd]; rfl
      cases hr : st.runnerCache.lookup d.type with
      | none =>
        have hr2 : (canonState st).runnerCache.lookup (canonDeployment d).type = none := hr
        rw [runAfterVerify_no_runner hc hd hr, runAfterVerify_no_runner hc2 hd2 hr2]
        rfl
      | some r =>
        have hr2 : (canonState st).runnerCache.lookup (canonDeployment d).type = some r := hr
        have hmods : (canonDeployment d).modules = d.modules.map canonRef := rfl
        cases hl : loadModules hookOk st.modulePathCache d d.modules with
        | mk evs err =>
          have hl2 : loadModules hookOk (canonState st).modulePathCache (canonDeployment d)
              (canonDeployment d).modules = (evs, err) := by
            rw [hmods]
            show loadModules hookOk st.modulePathCache (canonDeployment d)
              (d.modules.map canonRef) = (evs, err)
            rw [loadModules_canon, hl]
          cases err with
          | some e =>
            rw [runAfterVerify_load_error hc hd hr hl, runAfterVerify_load_error hc2 hd2 hr2 hl2]
            rfl
          | none =>
            cases hrun : hookOk .run with
            | true =>
              rw [runAfterVerify_success hc hd hr hl hrun,
                runAfterVerify_success hc2 hd2 hr2 hl2 hrun]
              rfl
            | false =>
              rw [runAfterVerify_runhook_error hc hd hr hl hrun,
                runAfterVerify_runhook_error hc2 hd2 hr2 hl2 hrun]
              rfl

theorem run_canon (st : ExecState) (name : String) (v : Option Bool) (hookOk : Event → Bool) :
    run (canonState st) name v hookOk =
      ((run st name v hookOk).1,
       canonState (run st name v hookOk).2.1,
       (run st name v hookOk).2.2) := by
  rw [run, run]
  cases htv : truthy v with
  | false =>
    simp only [Bool.false_eq_true, if_false]
    exact runAfterVerify_canon st name hookOk
  | true =>
    simp only [if_true]
    have hcc : (canonState st).configCache = st.configCache := rfl
    have hvv : verifyDependencies (canonState st).configCache (canonState st).config =
        verifyDependencies st.configCache st.config := by
      rw [hcc]
      cases hc : st.config with
      | none => rw [canonState]; rw [hc]; rfl
      | some cfg =>
        have hc2 : (canonState st).config = some (canonConfig cfg) := by
          rw [canonState]; rw [hc]; rfl
        rw [hc2, verifyDependencies_canon]
    rw [hvv]
    cases hv : verifyDependencies st.configCache st.config with
    | error e => rfl
    | ok u =>
      cases u
      exact runAfterVerify_canon st name hookOk

/-! ## The dependency-error message -/

theorem depErrorMsg_substrings (n c : String) :
    n.data <:+: (depErrorMsg n c).data ∧ c.data <:+: (depErrorMsg n c).data := by
  constructor
  · exact ⟨"Expected module ".data, (" command " ++ c ++ " to be loaded.").data, by
      rw [depErrorMsg]
      simp [String.data_append, List.append_assoc]⟩
  · exact ⟨("Expected module " ++ n ++ " command ").data, " to be loaded.".data, by
      rw [depErrorMsg]
      simp [String.data_append, List.append_assoc]⟩

/-! ## Concrete fixtures used by witnesses and counterexamples -/

/-- A declaration with no dependencies, named `Account`. -/
def accountConfig : ModuleConfig :=
  { version := 1, dependencies := none, name := "Account" }

/-- A declaration for `Member` depending on the `Query` command of
`Account`. -/
def memberConfig : ModuleConfig :=
  { version := 1, dependencies := some [{ name := "Account", of := .scalar "Query" }],
    name := "Member" }

/-- A template carrying only `modules: [A]`. -/
def tmplT : PartialDeployment := { modules := some [.str "A"] }

/-- An entry referencing template `T` and explicitly setting
`modules: [B]`. -/
def entryT : PartialDeployment :=
  { template := some "T", modules := some [.str "B"] }

/-- A manifest with no deployment entries. -/
def emptyManifest : DeploymentConfig :=
  { version := 1, templates := none, deployment := [] }

/-- An entry of type `Rest` named `BE` loading `Account` with the entry
default command `Query`. -/
def dBE : Deployment :=
  { type := "Rest", name := "BE", of := .scalar "Query", description := none,
    modules := [.str "Account"], template := none, load := none }

/-- A manifest holding only `dBE`. -/
def cfgBE : DeploymentConfig :=
  { version := 1, templates := none, deployment := [dBE] }

/-- A fully provisioned executor state for `cfgBE` with a `Rest` runner. -/
def stWithRunner : ExecState :=
  { config := some cfgBE, configCache := [("Account", accountConfig)],
    runnerCache := [("Rest", "Rest")], modulePathCache := [("Account", "/m/account")] }

/-- Like `stWithRunner`, but only a `GraphQL` runner is registered, so the
`Rest` entry has no runner. -/
def stNoRunner : ExecState :=
  { config := some cfgBE, configCache := [("Account", accountConfig)],
    runnerCache := [("GraphQL", "GraphQL")],
    modulePathCache := [("Account", "/m/account")] }

/-- A state whose caches are all empty but whose manifest is present:
verification on it fails at the cache-size assert. -/
def stEmptyCaches : ExecState :=
  { config := some emptyManifest, configCache := [], runnerCache := [],
    modulePathCache := [] }

/-- An entry loading `Member` and `Account` with default command
`Mutation` only, so nothing anywhere loads the `Query` command of
`Account`. -/
def dMutation : Deployment :=
  { type := "GraphQL", name := "BE", of := .scalar "Mutation", description := none,
    modules := [.str "Member", .str "Account"], template := none, load := none }

/-- A manifest holding only `dMutation`. -/
def cfgMutation : DeploymentConfig :=
  { version := 1, templates := none, deployment := [dMutation] }

/-- Declarations for `Member` and `Account`. -/
def cacheMA : List (String × ModuleConfig) :=
  [("Member", memberConfig), ("Account", accountConfig)]

/-- An entry listing a module that has no declaration anywhere. -/
def dGhost : Deployment :=
  { type := "Rest", name := "G", of := .scalar "Query", description := none,
    modules := [.str "Ghost"], template := none, load := none }

/-- A manifest holding only `dGhost`. -/
def cfgGhost : DeploymentConfig :=
  { version := 1, templates := none, deployment := [dGhost] }

/-! ## Claims -/

/-- C1 (counterexample): with template `T = \x7bmodules: [A]\x7d` and entry
`\x7btemplate: T, modules: [B]\x7d`, resolution yields `modules: [A]` — the
template's fields, not the entry's, win the shallow merge, refuting the
claim that the resolved entry has `modules: [B]`. -/
theorem template_override_counterexample :
    (resolveEntry (some [("T", tmplT)]) entryT).map PartialDeployment.modules =
      .ok (some [ModuleRef.str "A"]) ∧
    (some [ModuleRef.str "A"] : Option (List ModuleRef)) ≠ some [ModuleRef.str "B"] := by
  constructor
  · rfl
  · decide

/-- C1 (amended): template expansion produces the shallow merge in which
the TEMPLATE's fields take precedence over the entry's own explicitly-set
fields: whenever the referenced template sets `modules`, the resolved
entry carries the template's `modules`, whatever the entry set. -/
theorem template_merge_template_wins (tbl : List (String × PartialDeployment))
    (service tmpl : PartialDeployment) (t : String) (mods : List ModuleRef)
    (hs : service.template = some t) (ht : t ≠ "")
    (hl : tbl.lookup t = some tmpl) (hm : tmpl.modules = some mods) :
    resolveEntry (some tbl) service = .ok (mergeTemplate service tmpl) ∧
    (mergeTemplate service tmpl).modules = some mods := by
  constructor
  · simp only [resolveEntry, hs, ht, if_false, hl]
  · simp [mergeTemplate, hm, Option.orElse]

/-- Witness for C1 (amended) at the concrete template/entry pair. -/
theorem template_merge_template_wins_witness :
    resolveEntry (some [("T", tmplT)]) entryT = .ok (mergeTemplate entryT tmplT) ∧
    (mergeTemplate entryT tmplT).modules = some [ModuleRef.str "A"] :=
  template_merge_template_wins [("T", tmplT)] entryT tmplT "T" [ModuleRef.str "A"]
    rfl (by decide) rfl rfl

/-- C2 (counterexample): with an empty declaration cache and an empty
manifest, the aggregate-membership condition holds vacuously, yet
verification throws at the cache-size assert — so the claimed equivalence
fails as stated. -/
theorem verification_iff_counterexample :
    depsSatisfied [] emptyManifest ∧
    verifyDependencies [] (some emptyManifest) ≠ .ok () := by
  constructor
  · intro d hd
    exact absurd hd (List.not_mem_nil d)
  · intro h
    exact Except.noConfusion h

/-- C2 (amended): provided the declaration cache is non-empty and every
deployed module has a declaration, verification succeeds iff every command
of every dependency declaration of every listed module is contributed for
the dependency's name by some entry of the whole manifest. -/
theorem verification_iff_global_aggregate (cache : List (String × ModuleConfig))
    (cfg : DeploymentConfig) (hne : cache ≠ [])
    (hdecl : ∀ d ∈ cfg.deployment, ∀ m ∈ d.modules,
      (cache.lookup (moduleName m)).isSome) :
    verifyDependencies cache (some cfg) = .ok () ↔ depsSatisfied cache cfg :=
  verifyDependencies_ok_iff hne hdecl

/-- Witness for C2 (amended) at a concrete cache and manifest. -/
theorem verification_iff_global_aggregate_witness :
    cacheMA ≠ [] ∧
    (verifyDependencies cacheMA (some cfgMutation) = .ok () ↔
      depsSatisfied cacheMA cfgMutation) :=
  ⟨by decide, verification_iff_global_aggregate cacheMA cfgMutation (by decide) (by decide)⟩

/-- C3 (counterexample): on the missing-runner failure path the
declaration cache has already been cleared, refuting the claim that every
failure path leaves all three caches populated as before the call. -/
theorem run_cache_frame_counterexample :
    run stNoRunner "BE" (some true) allHooksOk =
      (.error "assertion failed: runner",
       { config := some cfgBE, configCache := [],
         runnerCache := [("GraphQL", "GraphQL")],
         modulePathCache := [("Account", "/m/account")] }, []) ∧
    stNoRunner.configCache ≠ [] := by
  constructor
  · rfl
  · decide

/-- C3 (amended): a failed verification leaves all three caches untouched;
once verification passes, the declaration cache is cleared before entry
matching; the runner registry is cleared as soon as the runner is found,
before any load hook runs; the path cache is cleared only after the run
hook completes, so a failed load or run hook leaves only the path cache
populated, and a successful run leaves all three caches empty. -/
theorem run_cache_lifecycle (st : ExecState) (name : String) (hookOk : Event → Bool) :
    (∀ e, verifyDependencies st.configCache st.config = .error e →
      run st name (some true) hookOk = (.error e, st, [])) ∧
    (∀ cfg, st.config = some cfg →
      verifyDependencies st.configCache st.config = .ok () →
      ((findDeployment cfg name = none →
         run st name (some true) hookOk = (.ok (), { st with configCache := [] }, [])) ∧
       (∀ d, findDeployment cfg name = some d →
         (st.runnerCache.lookup d.type = none →
           run st name (some true) hookOk =
             (.error "assertion failed: runner", { st with configCache := [] }, [])) ∧
         (∀ r, st.runnerCache.lookup d.type = some r →
           (∀ evs e, loadModules hookOk st.modulePathCache d d.modules = (evs, some e) →
             run st name (some true) hookOk =
               (.error e, { st with configCache := [], runnerCache := [] }, evs)) ∧
           (∀ evs, loadModules hookOk st.modulePathCache d d.modules = (evs, none) →
             (hookOk .run = false →
               run st name (some true) hookOk =
                 (.error "run hook rejected",
                  { st with configCache := [], runnerCache := [] }, evs ++ [.run])) ∧
             (hookOk .run = true →
               run st name (some true) hookOk =
                 (.ok (),
                  { st with configCache := [], runnerCache := [], modulePathCache := [] },
                  evs ++ [.run]))))))) := by
  refine ⟨fun e he => run_verify_error he, fun cfg hc hv => ⟨fun hd => ?_, fun d hd => ⟨fun hr => ?_, fun r hr => ⟨fun evs e hl => ?_, fun evs hl => ⟨fun hrn => ?_, fun hrn => ?_⟩⟩⟩⟩⟩
  · rw [run_verify_ok hv, runAfterVerify_no_match hc hd]
  · rw [run_verify_ok hv, runAfterVerify_no_runner hc hd hr]
  · rw [run_verify_ok hv, runAfterVerify_load_error hc hd hr hl]
  · rw [run_verify_ok hv, runAfterVerify_runhook_error hc hd hr hl hrn]
  · rw [run_verify_ok hv, runAfterVerify_success hc hd hr hl hrn]

/-- Witness for C3 (amended): a failed verification returns the error and
leaves the state exactly as it was. -/
theorem run_cache_lifecycle_witness :
    run stEmptyCaches "X" (some true) allHooksOk =
      (.error "Expected that config cache has already been loaded.", stEmptyCaches, []) :=
  (run_cache_lifecycle stEmptyCaches "X" allHooksOk).1 _ rfl

/-- C4 (counterexample): running a name absent from the manifest completes
with `ok` and an empty event trace — no error is raised and no runner hook
is invoked, refuting the claimed `NotFoundError`. -/
theorem run_unmatched_counterexample :
    run stWithRunner "ghost" (some true) allHooksOk =
      (.ok (), { config := some cfgBE, configCache := [],
                 runnerCache := [("Rest", "Rest")],
                 modulePathCache := [("Account", "/m/account")] }, []) := by
  rfl

/-- C4 (amended): a name matching no deployment entry makes `run` complete
silently without invoking any runner (the declaration cache still gets
cleared), while a matched entry whose `type` has no registered runner
makes `run` fail with the runner assertion. -/
theorem run_unmatched_silent_missing_runner_fails (st : ExecState) (name : String)
    (hookOk : Event → Bool) (cfg : DeploymentConfig) (hc : st.config = some cfg) :
    ((∀ d ∈ cfg.deployment, d.name ≠ name) →
      run st name (some false) hookOk = (.ok (), { st with configCache := [] }, [])) ∧
    (∀ d, findDeployment cfg name = some d → st.runnerCache.lookup d.type = none →
      run st name (some false) hookOk =
        (.error "assertion failed: runner", { st with configCache := [] }, [])) := by
  constructor
  · intro h
    have hfind : findDeployment cfg name = none := by
      rw [findDeployment]
      apply List.find?_eq_none.mpr
      intro d hd
      simp [h d hd]
    rw [run_skip_verify (v := some false) rfl, runAfterVerify_no_match hc hfind]
  · intro d hd hr
    rw [run_skip_verify (v := some false) rfl, runAfterVerify_no_runner hc hd hr]

/-- Witness for C4 (amended) at the concrete state and an absent name. -/
theorem run_unmatched_silent_missing_runner_fails_witness :
    run stWithRunner "ghost" (some false) allHooksOk =
      (.ok (), { config := some cfgBE, configCache := [],
                 runnerCache := [("Rest", "Rest")],
                 modulePathCache := [("Account", "/m/account")] }, []) :=
  (run_unmatched_silent_missing_runner_fails stWithRunner "ghost" allHooksOk cfgBE rfl).1
    (by decide)

/-- C5 (code bug): the `verify` parameter has no default; an omitted
argument is `undefined`, which is falsy, so `run(name)` behaves exactly
like `run(name, false)` and skips verification — here a state whose
verification would fail still runs to a non-error result. -/
theorem run_omitted_verify_skips_verification :
    (∀ (st : ExecState) (name : String) (hookOk : Event → Bool),
      run st name none hookOk = run st name (some false) hookOk) ∧
    verifyDependencies stEmptyCaches.configCache stEmptyCaches.config =
      .error "Expected that config cache has already been loaded." ∧
    (run stEmptyCaches "X" none allHooksOk).1 = .ok () :=
  ⟨fun _ _ _ => rfl, rfl, rfl⟩

/-- C6 (counterexample): with `Member` declaring `\x7bname: Account, of:
Query\x7d` and no entry loading the `Query` command of `Account`,
verification fails with a message naming `Account` and `Query` but NOT the
dependent module `Member`. -/
theorem dependency_error_counterexample :
    verifyDependencies cacheMA (some cfgMutation) =
      .error "Expected module Account command Query to be loaded." ∧
    ¬ ("Member".data <:+:
        "Expected module Account command Query to be loaded.".data) := by
  constructor
  · rfl
  · decide

/-- C6 (amended): whenever verification fails on a manifest whose listed
modules are all declared (and the cache is non-empty), the error is the
line-153 assert message, which names the dependency's name and the missing
command — the dependent module is not part of the message format. -/
theorem dependency_error_names (cache : List (String × ModuleConfig))
    (cfg : DeploymentConfig) (e : String) (hne : cache ≠ [])
    (hdecl : ∀ d ∈ cfg.deployment, ∀ m ∈ d.modules,
      (cache.lookup (moduleName m)).isSome)
    (h : verifyDependencies cache (some cfg) = .error e) :
    ∃ depName c, e = depErrorMsg depName c ∧
      depName.data <:+: e.data ∧ c.data <:+: e.data := by
  obtain ⟨d, hd, m, hm, mc, deps, dep, hmc, hdeps, hdep, c, hc, he⟩ :=
    verifyDependencies_error_shape hne hdecl h
  refine ⟨dep.name, c, he, ?_, ?_⟩
  · rw [he]
    exact (depErrorMsg_substrings dep.name c).1
  · rw [he]
    exact (depErrorMsg_substrings dep.name c).2

/-- Witness for C6 (amended) at the concrete failing manifest. -/
theorem dependency_error_names_witness :
    ∃ depName c,
      "Expected module Account command Query to be loaded." = depErrorMsg depName c ∧
      depName.data <:+: "Expected module Account command Query to be loaded.".data ∧
      c.data <:+: "Expected module Account command Query to be loaded.".data :=
  dependency_error_names cacheMA cfgMutation _ (by decide) (by decide) rfl

/-- C7: every successful `run` on a matched entry produces exactly the
load events of the entry — one per (module, command) pair, in manifest
module order and command order within each module — followed by a single
run-hook event; the run hook comes after every load and occurs exactly
once (it never appears among the load events). -/
theorem run_trace_structure (st : ExecState) (name : String) (v : Option Bool)
    (hookOk : Event → Bool) (st2 : ExecState) (tr : List Event)
    (cfg : DeploymentConfig) (d : Deployment)
    (hc : st.config = some cfg) (hd : findDeployment cfg name = some d)
    (h : run st name v hookOk = (.ok (), st2, tr)) :
    tr = entryLoads st.modulePathCache d ++ [Event.run] ∧
    Event.run ∉ entryLoads st.modulePathCache d := by
  have hrun : runAfterVerify st name hookOk = (.ok (), st2, tr) := by
    rw [run] at h
    cases htv : truthy v with
    | false =>
      rw [htv] at h
      simpa using h
    | true =>
      rw [htv] at h
      simp only [if_true] at h
      cases hv : verifyDependencies st.configCache st.config with
      | error e =>
        rw [hv] at h
        simp at h
      | ok u =>
        cases u
        rw [hv] at h
        exact h
  cases hr : st.runnerCache.lookup d.type with
  | none =>
    rw [runAfterVerify_no_runner hc hd hr] at hrun
    simp at hrun
  | some r =>
    cases hl : loadModules hookOk st.modulePathCache d d.modules with
    | mk evs err =>
      cases err with
      | some e =>
        rw [runAfterVerify_load_error hc hd hr hl] at hrun
        simp at hrun
      | none =>
        cases hrn : hookOk .run with
        | false =>
          rw [runAfterVerify_runhook_error hc hd hr hl hrn] at hrun
          simp at hrun
        | true =>
          rw [runAfterVerify_success hc hd hr hl hrn] at hrun
          simp only [Prod.mk.injEq] at hrun
          constructor
          · rw [← hrun.2.2, loadModules_ok hl]
            rfl
          · exact entryLoads_no_run

/-- Witness for C7: a concrete successful run and its trace. -/
theorem run_trace_structure_witness :
    run stWithRunner "BE" (some true) allHooksOk =
      (.ok (), { config := some cfgBE, configCache := [], runnerCache := [],
                 modulePathCache := [] },
        [Event.load "/m/account/query" "BE", Event.run]) ∧
    ([Event.load "/m/account/query" "BE", Event.run] =
        entryLoads stWithRunner.modulePathCache dBE ++ [Event.run] ∧
      Event.run ∉ entryLoads stWithRunner.modulePathCache dBE) :=
  ⟨rfl, run_trace_structure stWithRunner "BE" (some true) allHooksOk
    { config := some cfgBE, configCache := [], runnerCache := [], modulePathCache := [] }
    [Event.load "/m/account/query" "BE", Event.run] cfgBE dBE rfl rfl rfl⟩

/-- C8: the aggregated per-module command map of verification pass one is
invariant under permutation of the manifest's deployment entry list. -/
theorem aggregation_perm_invariant (ds1 ds2 : List Deployment) (h : ds1.Perm ds2) :
    loadedCommands ds1 = loadedCommands ds2 := by
  funext n
  rw [loadedCommands_eq, loadedCommands_eq]
  have hn : (deployedNames ds1).Perm (deployedNames ds2) := h.flatMap_right _
  have hcp : (contribs ds1 n).Perm (contribs ds2 n) := h.flatMap_right _
  rw [List.toFinset_eq_of_perm _ _ hcp]
  by_cases hm : n ∈ deployedNames ds1
  · rw [if_pos hm, if_pos (hn.mem_iff.mp hm)]
  · rw [if_neg hm, if_neg (fun hx => hm (hn.mem_iff.mpr hx))]

/-- Witness for C8 at a concrete two-entry manifest and its swap. -/
theorem aggregation_perm_invariant_witness :
    ([dBE, dMutation].Perm [dMutation, dBE]) ∧
    loadedCommands [dBE, dMutation] = loadedCommands [dMutation, dBE] :=
  ⟨List.Perm.swap dMutation dBE [],
   aggregation_perm_invariant _ _ (List.Perm.swap dMutation dBE [])⟩

/-- C9: scalar-to-sequence normalization is lossless — `toArray` maps a
scalar to its singleton sequence; normalizing every `of` field leaves the
aggregated command map unchanged; and a run on the normalized manifest
returns the same result and the same event trace (with the normalized
state carried along). -/
theorem scalar_sequence_normalization :
    (∀ c, toArray (StrOrList.scalar c) = toArray (StrOrList.seq [c])) ∧
    (∀ ds, loadedCommands (ds.map canonDeployment) = loadedCommands ds) ∧
    (∀ (st : ExecState) (name : String) (v : Option Bool) (hookOk : Event → Bool),
      run (canonState st) name v hookOk =
        ((run st name v hookOk).1, canonState (run st name v hookOk).2.1,
          (run st name v hookOk).2.2)) :=
  ⟨fun _ => rfl, loadedCommands_canon, run_canon⟩

/-- C10: a manifest that lists a module with no declaration in the
registry cache can never pass dependency verification. -/
theorem verification_requires_declarations (cache : List (String × ModuleConfig))
    (cfg : DeploymentConfig) (d : Deployment) (m : ModuleRef)
    (hd : d ∈ cfg.deployment) (hm : m ∈ d.modules)
    (hmiss : cache.lookup (moduleName m) = none) :
    verifyDependencies cache (some cfg) ≠ .ok () :=
  verify_fails_of_missing_decl hd hm hmiss

/-- Witness for C10 at a manifest listing an undeclared module `Ghost`. -/
theorem verification_requires_declarations_witness :
    verifyDependencies [("Account", accountConfig)] (some cfgGhost) ≠ .ok () :=
  verification_requires_declarations [("Account", accountConfig)] cfgGhost dGhost
    (.str "Ghost") (by decide) (by decide) (by decide)

end Framo
